import Mathlib

/-!
Verification of the pyproject_installer build front-end and wheel installer.

The Lean definitions below are shallow embeddings of the Python source:

* `parse_name`, `wheel_builder_filename` — `lib/wheel.py` (`parse_name`) and
  `backend/wheel.py` (`WheelBuilder.__init__`): the wheel filename grammar.
* `build_shebang` — `lib/scripts.py` / `install_cmd/_install.py`.
* `filter_dist_info` — `install_cmd/_install.py`.
* `SUPPORTED_HOOKS`, `hook_name_accepted` —
  `build_cmd/helper/backend_caller.py`.

Python strings are Lean `String`s, bytes are `List Nat`, fallible code
returns `Except`.  `hashlib` digests are an explicit function parameter
(`String → List Nat → Option (List Nat)`, `none` modelling the `ValueError`
raised for an unsupported algorithm name); the URL-safe unpadded base64
encoding applied on top of the raw digest is implemented concretely.
-/

/-- Alphabet of `base64.urlsafe_b64encode`. -/
def b64urlChars : List Char :=
  "ABCDEFGHIJKLMNOPQRSTUVWXYZabcdefghijklmnopqrstuvwxyz0123456789-_".toList

def b64char (n : Nat) : Char := b64urlChars.getD n 'A'

/-- `base64.urlsafe_b64encode(digest).rstrip(b"=")`: URL-safe base64 with the
padding stripped, on a byte list.  Three bytes map to four output characters;
a final group of one or two bytes maps to two or three characters. -/
def b64urlNoPad : List Nat → List Char
  | b1 :: b2 :: b3 :: rest =>
    let n := (b1 % 256) * 65536 + (b2 % 256) * 256 + b3 % 256
    b64char (n / 262144) :: b64char (n / 4096 % 64) :: b64char (n / 64 % 64) ::
      b64char (n % 64) :: b64urlNoPad rest
  | [b1, b2] =>
    let n := (b1 % 256) * 1024 + (b2 % 256) * 4
    [b64char (n / 4096), b64char (n / 64 % 64), b64char (n % 64)]
  | [b1] =>
    let n := (b1 % 256) * 16
    [b64char (n / 64), b64char (n % 64)]
  | [] => []

/-- `digest_for_record(name, data)` of `install_cmd/_install.py` /
`lib/wheel.py`, relative to a digest oracle `dg` modelling `hashlib.new`:
`none` models the `ValueError` raised on an unknown algorithm name. -/
def digest_for_record (dg : String → List Nat → Option (List Nat))
    (name : String) (data : List Nat) : Option String :=
  (dg name data).map (fun d => String.mk (b64urlNoPad d))

/-- Python `str.split(sep)` for a one-character separator, on char lists.
`splitOnChar c l` always returns at least one (possibly empty) part. -/
def splitOnChar (c : Char) : List Char → List (List Char)
  | [] => [[]]
  | x :: xs =>
    if x = c then [] :: splitOnChar c xs
    else
      match splitOnChar c xs with
      | [] => [[x]]
      | s :: ss => (x :: s) :: ss

/-- `parse_name` of `lib/wheel.py`: accept `.whl` filenames with five or six
dash-separated segments and non-empty first (name) and second (version)
segments; return the pair of those segments. -/
def parse_name (name : String) : Except Unit (String × String) :=
  let cs := name.toList
  if ".whl".toList.isSuffixOf cs then
    let parts := splitOnChar '-' (cs.take (cs.length - 4))
    if parts.length = 5 ∨ parts.length = 6 then
      match parts with
      | n :: v :: _ =>
        if n = [] ∨ v = [] then .error () else .ok (String.mk n, String.mk v)
      | _ => .error ()
    else .error ()
  else .error ()

/-- The filename formatted by the self-hosted builder,
`WheelBuilder.__init__` of `backend/wheel.py`. -/
def wheel_builder_filename (distr_name distr_version : String) : String :=
  distr_name ++ "-" ++ distr_version ++ "-py3-none-any.whl"

/-- `build_shebang` of `lib/scripts.py`: a direct shebang for a short,
space-free interpreter path, otherwise the two-stage `/bin/sh` wrapper. -/
def build_shebang (executable : String) : String :=
  if ' ' ∉ executable.toList ∧ executable.length ≤ 127 then
    "#!" ++ executable
  else
    "#!/bin/sh\n\x27\x27\x27exec\x27 " ++ executable ++ " \"$0\" \"$@\"\n\x27 \x27\x27\x27"

/-- First component of `pathlib.Path(f).parts` for a plain relative member
name: the prefix up to the first slash. -/
def part0 (f : String) : String :=
  String.mk (f.toList.takeWhile (fun c => c ≠ '/'))

def ALLOW_DIST_INFO_LIST : List String := ["METADATA", "entry_points.txt"]

def DENY_DIST_INFO_LIST : List String := ["RECORD"]

/-- `filter_dist_info` of `install_cmd/_install.py`: members outside the
dist-info directory pass through; inside it, with stripping only the
allow-list survives, and the deny list (RECORD) is dropped unconditionally. -/
def filter_dist_info (dist_info : String) (members : List String)
    (strip_dist_info : Bool := true) : List String :=
  let allow_list := ALLOW_DIST_INFO_LIST.map (fun f => dist_info ++ "/" ++ f)
  let deny_list := DENY_DIST_INFO_LIST.map (fun f => dist_info ++ "/" ++ f)
  members.filter fun file =>
    if part0 file = dist_info then
      if strip_dist_info && !(allow_list.contains file) then false
      else !(deny_list.contains file)
    else true

/-- Fallback of an optional hook in `SUPPORTED_HOOKS` of
`build_cmd/helper/backend_caller.py`: `None` (mandatory) or `[]`. -/
inductive HookFallback where
  | mandatory
  | emptyList
deriving DecidableEq

/-- `SUPPORTED_HOOKS` of `build_cmd/helper/backend_caller.py`, verbatim:
the hook-name → fallback table used as the `choices` of the subprocess
caller's `hook_name` argument. -/
def SUPPORTED_HOOKS : List (String × HookFallback) :=
  [("build_wheel", .mandatory),
   ("build_sdist", .mandatory),
   ("get_requires_for_build_wheel", .emptyList),
   ("get_requires_for_build_sdist", .emptyList)]

/-- Whether `argparse` accepts `h` for the `hook_name` positional
(`choices=SUPPORTED_HOOKS`). -/
def hook_name_accepted (h : String) : Bool :=
  (SUPPORTED_HOOKS.map Prod.fst).contains h

/-- Error conditions of `WheelFile.validate_record` / `validate_hash_record`
(`install_cmd/_install.py`, `lib/wheel.py`), one constructor per distinct
`ValueError`; `unsupportedAlg` models the `ValueError` escaping from
`hashlib.new` on an unknown algorithm name. -/
inductive RecordError where
  | badFieldCount (row : List String)
  | multipleRecords (f : String)
  | notPackaged (f : String)
  | invalidHash (hi : String)
  | weakHash (alg : String)
  | unsupportedAlg (alg : String)
  | incorrectHash (f : String)
  | emptyRecord
  | extraPackaged (extra : List String)
deriving DecidableEq

/-- Python `str.partition("=")` projected to the pair
(before first `=`, after first `=`); both components are empty-compatible
with the source's use (`hash_name, _, hash_value`). -/
def partitionEq (s : String) : String × String :=
  let cs := s.toList
  let name := cs.takeWhile (fun c => c ≠ '=')
  (String.mk name, String.mk ((cs.drop name.length).drop 1))

/-- `WheelFile.validate_hash_record` of `install_cmd/_install.py`:
split `hash_info` as `algorithm=digest`, reject empty parts, reject md5/sha1
case-insensitively, then compare the recorded digest with the URL-safe
unpadded base64 encoding of the freshly computed digest of `data`. -/
def validate_hash_record (dg : String → List Nat → Option (List Nat))
    (recorded_file : String) (hash_info : String) (data : List Nat) :
    Except RecordError Unit :=
  let parts := partitionEq hash_info
  if parts.1 = "" ∨ parts.2 = "" then .error (.invalidHash hash_info)
  else
    let hash_name := String.mk (parts.1.toList.map Char.toLower)
    if hash_name = "md5" ∨ hash_name = "sha1" then .error (.weakHash hash_name)
    else
      match digest_for_record dg hash_name data with
      | none => .error (.unsupportedAlg hash_name)
      | some digest =>
        if digest = parts.2 then .ok () else .error (.incorrectHash recorded_file)

/-- `(self.root / recorded_file).read_bytes()` over the zip modelled as an
association list of members. -/
def lookupBytes (wheel : List (String × List Nat)) (f : String) : List Nat :=
  ((wheel.find? (fun m => m.1 == f)).map Prod.snd).getD []

/-- The row loop of `WheelFile.validate_record`: each row must have three
fields, be no duplicate, reference a packaged member, and (except for the
RECORD row itself) carry a valid hash; returns the accumulated set of
recorded files. -/
def validate_record_rows (dg : String → List Nat → Option (List Nat))
    (wheel : List (String × List Nat)) (record_path : String)
    (recorded : List String) : List (List String) → Except RecordError (List String)
  | [] => .ok recorded
  | row :: rest =>
    match row with
    | [recorded_file, hash_info, _sz] =>
      if recorded_file ∈ recorded then .error (.multipleRecords recorded_file)
      else if recorded_file ∉ wheel.map Prod.fst then .error (.notPackaged recorded_file)
      else
        match (if recorded_file = record_path then Except.ok ()
               else validate_hash_record dg recorded_file hash_info
                 (lookupBytes wheel recorded_file)) with
        | .error e => .error e
        | .ok _ => validate_record_rows dg wheel record_path (recorded_file :: recorded) rest
    | _ => .error (.badFieldCount row)

/-- The two detached-signature filenames exempt from RECORD coverage. -/
def UNRECORDED_FILES (dist_info : String) : List String :=
  ["RECORD.jws", "RECORD.p7s"].map (fun f => dist_info ++ "/" ++ f)

/-- `WheelFile.validate_record` of `install_cmd/_install.py`: run the row
loop, then require a non-empty RECORD and no packaged member outside
RECORD other than the two exempted signature files.  `wheel` is the zip
member list with bytes, `rows` the CSV-parsed RECORD contents. -/
def validate_record (dg : String → List Nat → Option (List Nat))
    (dist_info : String) (wheel : List (String × List Nat))
    (rows : List (List String)) : Except RecordError Unit :=
  let record_path := dist_info ++ "/" ++ "RECORD"
  match validate_record_rows dg wheel record_path [] rows with
  | .error e => .error e
  | .ok recorded =>
    if recorded = [] then .error .emptyRecord
    else
      let extra := (wheel.map Prod.fst).filter
        (fun m => !(recorded.contains m) && !((UNRECORDED_FILES dist_info).contains m))
      if extra = [] then .ok () else .error (.extraPackaged extra)

/-- Python `str.strip()` on a char list (ASCII whitespace). -/
def pyWhitespace (c : Char) : Bool :=
  c == ' ' || c == '\t' || c == '\n' || c == '\r' || c == '\x0b' || c == '\x0c'

def pyStrip (l : List Char) : List Char :=
  ((l.dropWhile pyWhitespace).reverse.dropWhile pyWhitespace).reverse

/-- Digit run of Python `int(str)`: digits with single underscores allowed
between digits. -/
def pyDigits (acc : Nat) : List Char → Option Nat
  | [] => some acc
  | '_' :: c :: cs => if c.isDigit then pyDigits (acc * 10 + (c.toNat - 48)) cs else none
  | ['_'] => none
  | c :: cs => if c.isDigit then pyDigits (acc * 10 + (c.toNat - 48)) cs else none

/-- Python `int(str)`: strip whitespace, optional sign, non-empty digit run. -/
def pyInt (s : String) : Option Int :=
  match pyStrip s.toList with
  | '-' :: c :: cs =>
    if c.isDigit then (pyDigits (c.toNat - 48) cs).map (fun n => -(n : Int)) else none
  | '+' :: c :: cs =>
    if c.isDigit then (pyDigits (c.toNat - 48) cs).map (fun n => (n : Int)) else none
  | c :: cs =>
    if c.isDigit then (pyDigits (c.toNat - 48) cs).map (fun n => (n : Int)) else none
  | [] => none

def WHEEL_SPECIFICATION_VERSION : List Int := [1, 0]

/-- Python tuple `<` comparison (lexicographic, shorter-is-smaller). -/
def tupleLt : List Int → List Int → Bool
  | [], [] => false
  | [], _ :: _ => true
  | _ :: _, [] => false
  | a :: as, b :: bs => if a < b then true else if a = b then tupleLt as bs else false

inductive WheelVersionError where
  | missingVersion
  | invalidVersion (v : String)
  | incompatibleVersion (v : String)
deriving DecidableEq

/-- `WheelFile.validate_wheel_spec_version` of `install_cmd/_install.py`:
the `Wheel-Version` field (`none` when the header is missing) is stripped and
parsed as a dotted integer tuple; a major greater than the supported major is
fatal; on success returns the tuple and whether the newer-than-supported
warning is emitted. -/
def validate_wheel_spec_version (wheel_version_text : Option String) :
    Except WheelVersionError (List Int × Bool) :=
  match wheel_version_text with
  | none => .error .missingVersion
  | some txt =>
    let wheel_version := String.mk (pyStrip txt.toList)
    match (splitOnChar '.' wheel_version.toList).mapM (fun p => pyInt (String.mk p)) with
    | none => .error (.invalidVersion wheel_version)
    | some t =>
      if t.headD 0 > WHEEL_SPECIFICATION_VERSION.headD 0 then
        .error (.incompatibleVersion wheel_version)
      else .ok (t, tupleLt WHEEL_SPECIFICATION_VERSION t)

/-- A TOML value as far as `parse_build_system_spec` inspects it:
a string, a list, or anything else. -/
inductive Toml where
  | tStr (s : String)
  | tList (items : List Toml)
  | tOther

/-- The `[build-system]` table of `pyproject.toml`. -/
structure BuildSystemTable where
  requires : Option Toml
  buildBackend : Option Toml
  backendPath : Option Toml

/-- The three cases `parse_build_system_spec` distinguishes before reading
the table: missing file, unparsable TOML, or parsed data with an optional
`[build-system]` table. -/
inductive PyprojectState where
  | noFile
  | badToml
  | parsed (buildSystem : Option BuildSystemTable)

structure BuildSystemSpec where
  buildBackend : String
  requires : List String
  backendPath : Option (List String)
deriving DecidableEq

inductive BuildSystemError where
  | invalidToml
  | missingRequires
  | requiresNotStrList
  | backendNotStr
  | backendPathNotStrList
  | absoluteBackendPath (p : String)
  | unresolvedBackendPath (p : String)
  | outsideBackendPath (p : String)
deriving DecidableEq

/-- The element-wise `isinstance(req, str)` loop over `requires`. -/
def strItems : List Toml → Option (List String)
  | [] => some []
  | .tStr s :: rest => (strItems rest).map (fun l => s :: l)
  | _ => none

/-- POSIX path components of a relative path string. -/
def pathComps (s : String) : List String :=
  (splitOnChar '/' s.toList).filterMap (fun c => if c = [] then none else some (String.mk c))

/-- `pathlib.PurePosixPath(s).is_absolute()`. -/
def isAbsolutePath (s : String) : Bool :=
  match s.toList with
  | '/' :: _ => true
  | _ => false

def DEFAULT_BUILD_SYSTEM : BuildSystemSpec :=
  { buildBackend := "setuptools.build_meta:__legacy__",
    requires := ["setuptools", "wheel"],
    backendPath := none }

/-- The per-entry `backend-path` validation loop of `parse_build_system_spec`
(`build_cmd/_build.py`): each entry must be a string, relative, resolvable
against the project root (`resolve` models `Path.resolve(strict=True)`
including symlink processing, `none` meaning the resolution exception), and
the resolved path must have the project root as a component-wise path
prefix (`Path.relative_to`). -/
def check_backend_paths (resolve : List String → Option (List String))
    (srcdir : List String) : List Toml → Except BuildSystemError (List String)
  | [] => .ok []
  | .tStr p :: rest =>
    if isAbsolutePath p then .error (.absoluteBackendPath p)
    else
      match resolve (srcdir ++ pathComps p) with
      | none => .error (.unresolvedBackendPath p)
      | some bep =>
        if srcdir.isPrefixOf bep then
          (check_backend_paths resolve srcdir rest).map (fun l => p :: l)
        else .error (.outsideBackendPath p)
  | _ => .error .backendPathNotStrList

/-- `parse_build_system_spec` of `build_cmd/_build.py`: missing file or
missing `[build-system]` table degrade to the default spec; malformed
`requires`, `build-backend` or `backend-path` are hard errors; a valid
`backend-path` is validated entry by entry before the spec is returned. -/
def parse_build_system_spec (resolve : List String → Option (List String))
    (srcdir : List String) (st : PyprojectState) :
    Except BuildSystemError BuildSystemSpec :=
  match st with
  | .noFile => .ok DEFAULT_BUILD_SYSTEM
  | .badToml => .error .invalidToml
  | .parsed none => .ok DEFAULT_BUILD_SYSTEM
  | .parsed (some bs) =>
    match bs.requires with
    | none => .error .missingRequires
    | some (.tList reqItems) =>
      match strItems reqItems with
      | none => .error .requiresNotStrList
      | some reqs =>
        match bs.buildBackend with
        | none => .ok { DEFAULT_BUILD_SYSTEM with requires := reqs }
        | some (.tStr bb) =>
          match bs.backendPath with
          | none => .ok { buildBackend := bb, requires := reqs, backendPath := none }
          | some (.tList bpItems) =>
            match check_backend_paths resolve srcdir bpItems with
            | .error e => .error e
            | .ok paths =>
              .ok { buildBackend := bb, requires := reqs, backendPath := some paths }
          | some _ => .error .backendPathNotStrList
        | some _ => .error .backendNotStr
    | some _ => .error .requiresNotStrList

/-- `call_hook` of `build_cmd/_build.py` parses the build-system spec first
and only then creates the pipe and spawns the subprocess; the Bool records
whether a subprocess was spawned. -/
def call_hook_spawns (resolve : List String → Option (List String))
    (srcdir : List String) (st : PyprojectState) :
    Except BuildSystemError BuildSystemSpec × Bool :=
  match parse_build_system_spec resolve srcdir st with
  | .error e => (.error e, false)
  | .ok spec => (.ok spec, true)

mutual
/-- A directory entry of the source tree walked by
`WheelBuilder.package_modules` (`backend/wheel.py`): a file carries content
bytes, a modification time and the `is_symlink`/`is_file` stat outcomes. -/
inductive FsEntry where
  | file (name : String) (content : List Nat) (mtime : Int) (symlink : Bool) (regular : Bool)
  | dir (name : String) (entries : FsList)
/-- A directory listing, in the (arbitrary) order the OS returns it. -/
inductive FsList where
  | nil
  | cons (e : FsEntry) (es : FsList)
end

def entryName : FsEntry → String
  | .file n _ _ _ _ => n
  | .dir n _ => n

/-- Lexicographic code-point comparison on char lists — the order Python
string comparison (and hence `sorted`) uses. -/
def charListLe : List Char → List Char → Bool
  | [], _ => true
  | _ :: _, [] => false
  | a :: as, b :: bs =>
    if a.toNat < b.toNat then true
    else if a.toNat = b.toNat then charListLe as bs
    else false

def nameLe (a b : String) : Bool := charListLe a.toList b.toList

def insertByName (e : FsEntry) : FsList → FsList
  | .nil => .cons e .nil
  | .cons x xs =>
    if nameLe (entryName e) (entryName x) then .cons e (.cons x xs)
    else .cons x (insertByName e xs)

mutual
/-- Recursive per-directory name sort: `os.walk` combined with
`sorted(dirs)` / `sorted(files)` visits exactly the sorted tree. -/
def sortEntry : FsEntry → FsEntry
  | .file n c m s r => .file n c m s r
  | .dir n es => .dir n (sortList es)
def sortList : FsList → FsList
  | .nil => .nil
  | .cons e es => insertByName (sortEntry e) (sortList es)
end

mutual
/-- Erase modification times (set them to 0), keeping everything else. -/
def scrubEntry : FsEntry → FsEntry
  | .file n c _ s r => .file n c 0 s r
  | .dir n es => .dir n (scrubList es)
def scrubList : FsList → FsList
  | .nil => .nil
  | .cons e es => .cons (scrubEntry e) (scrubList es)
end

/-- Canonical form of a source tree: sorted per directory, modification
times erased.  Two listings of the same on-disk tree (possibly returned by
the OS in different orders, possibly with touched files) have equal
canonical forms. -/
def canonTree (t : FsList) : FsList := scrubList (sortList t)

def lastDotIdxAux (i : Nat) (best : Option Nat) : List Char → Option Nat
  | [] => best
  | c :: cs => lastDotIdxAux (i + 1) (if c = '.' then some i else best) cs

/-- `pathlib.PurePath(n).suffix`. -/
def pySuffix (n : String) : String :=
  let cs := n.toList
  match lastDotIdxAux 0 none cs with
  | none => ""
  | some i => if 0 < i ∧ i < cs.length - 1 then String.mk (cs.drop i) else ""

/-- The per-file filter of `package_modules`: skip `.pyc`, keep only `.py`,
skip symlinks and non-regular files. -/
def keepModuleFile (name : String) (symlink regular : Bool) : Bool :=
  (pySuffix name == ".py") && !symlink && regular

/-- The files of one (already sorted) directory listing, with their archive
paths, contents, and raw mtimes. -/
def filesOut (p : String) : FsList → List (String × List Nat × Int)
  | .nil => []
  | .cons (.file n c m sym reg) rest =>
    (if keepModuleFile n sym reg then [(p ++ n, c, m)] else []) ++ filesOut p rest
  | .cons (.dir _ _) rest => filesOut p rest

/-- The recursive descent of `os.walk` (top-down) over an already sorted
listing, pruning `__pycache__`. -/
def walkDirs (p : String) : FsList → List (String × List Nat × Int)
  | .nil => []
  | .cons (.file _ _ _ _ _) rest => walkDirs p rest
  | .cons (.dir n sub) rest =>
    (if n = "__pycache__" then []
     else filesOut (p ++ n ++ "/") sub ++ walkDirs (p ++ n ++ "/") sub) ++ walkDirs p rest

/-- `package_modules` over a sorted listing: the files of the package root,
then the recursive descent. -/
def walkModules (p : String) (es : FsList) : List (String × List Nat × Int) :=
  filesOut p es ++ walkDirs p es

/-- `source_date_time` of `backend/common.py`:
`int(os.environ.get("SOURCE_DATE_EPOCH", mtime))`, with the environment
variable modelled as an already parsed `Option Int`. -/
def source_date_time (env : Option Int) (mtime : Int) : Int := env.getD mtime

/-- `WheelBuilder.add_record` for one member: `alg=urlsafe-b64(digest)`
without padding plus the byte size; `dg` models the sha256 digest. -/
def record_row (dg : List Nat → List Nat) (filename : String) (content : List Nat) :
    String × String × String :=
  (filename, "sha256=" ++ String.mk (b64urlNoPad (dg content)), toString content.length)

/-- The data of the produced wheel: each member's path, bytes and timestamp,
and the RECORD rows (the RECORD member's bytes are the CSV serialization of
`recordRows`, which the zip writer emits deterministically). -/
structure WheelArchive where
  members : List (String × List Nat × Int)
  recordRows : List (String × String × String)
deriving DecidableEq

/-- `build_wheel` + `WheelBuilder` of `backend/wheel.py`: walk the package
directory in sorted order, then append WHEEL, METADATA, the license files
and RECORD; every member timestamp goes through `source_date_time`
(`now` models `time.time()` for the dist-info members, each walked file
uses its own mtime). -/
def build_wheel_archive (dg : List Nat → List Nat) (env : Option Int) (now : Int)
    (dist_info : String) (tree : FsList) (wheel_meta core_metadata : List Nat)
    (licenses : List (String × List Nat × Int)) : WheelArchive :=
  let mods := walkModules "" (sortList tree)
  let wheelName := dist_info ++ "/" ++ "WHEEL"
  let metaName := dist_info ++ "/" ++ "METADATA"
  let recordName := dist_info ++ "/" ++ "RECORD"
  { members :=
      mods.map (fun m => (m.1, m.2.1, source_date_time env m.2.2))
        ++ [(wheelName, wheel_meta, source_date_time env now),
            (metaName, core_metadata, source_date_time env now)]
        ++ licenses.map (fun l => (dist_info ++ "/" ++ l.1, l.2.1, source_date_time env l.2.2))
        ++ [(recordName, [], source_date_time env now)],
    recordRows :=
      mods.map (fun m => record_row dg m.1 m.2.1)
        ++ [record_row dg wheelName wheel_meta, record_row dg metaName core_metadata]
        ++ licenses.map (fun l => record_row dg (dist_info ++ "/" ++ l.1) l.2.1)
        ++ [(recordName, "", "")] }

mutual
def sizeE : FsEntry → Nat
  | .file _ _ _ _ _ => 1
  | .dir _ es => sizeL es + 1
def sizeL : FsList → Nat
  | .nil => 0
  | .cons e es => sizeE e + sizeL es
end

/-- Path-and-content projection of a walk output (drops mtimes). -/
def pcProj (l : List (String × List Nat × Int)) : List (String × List Nat) :=
  l.map (fun m => (m.1, m.2.1))


/-! ## Helper lemmas -/

theorem splitOnChar_not_mem (c : Char) (a : List Char) (h : c ∉ a) :
    splitOnChar c a = [a] := by
  induction a with
  | nil => rfl
  | cons x xs ih =>
    have hx : ¬ x = c := fun hc => h (hc ▸ List.mem_cons_self x xs)
    have hxs : c ∉ xs := fun hc => h (List.mem_cons_of_mem _ hc)
    simp [splitOnChar, hx, ih hxs]

theorem splitOnChar_append (c : Char) (a b : List Char) (h : c ∉ a) :
    splitOnChar c (a ++ c :: b) = a :: splitOnChar c b := by
  induction a with
  | nil => simp [splitOnChar]
  | cons x xs ih =>
    have hx : ¬ x = c := fun hc => h (hc ▸ List.mem_cons_self x xs)
    have hxs : c ∉ xs := fun hc => h (List.mem_cons_of_mem _ hc)
    simp [splitOnChar, hx, ih hxs]

theorem isPrefixOf_self_append (a t : List Char) : a.isPrefixOf (a ++ t) = true := by
  induction a with
  | nil => simp [List.isPrefixOf]
  | cons x xs ih => simp [List.isPrefixOf, ih]

theorem isSuffixOf_self_append (a b : List Char) : b.isSuffixOf (a ++ b) = true := by
  show (b.reverse.isPrefixOf (a ++ b).reverse) = true
  rw [List.reverse_append]
  exact isPrefixOf_self_append _ _

theorem string_toList_mk (l : List Char) : (String.mk l).toList = l := rfl

theorem string_mk_toList (s : String) : String.mk s.toList = s := by
  cases s
  rfl

theorem string_toList_ne_nil (s : String) (h : s ≠ "") : s.toList ≠ [] := by
  intro hl
  apply h
  have := congrArg String.mk hl
  rwa [string_mk_toList] at this

theorem string_toList_append (a b : String) : (a ++ b).toList = a.toList ++ b.toList := rfl

theorem string_eq_of_toList (a b : String) (h : a.toList = b.toList) : a = b := by
  cases a
  cases b
  exact congrArg String.mk h

theorem parse_name_concat (A B : List Char) (hA : A ≠ []) (hB : B ≠ [])
    (hdA : '-' ∉ A) (hdB : '-' ∉ B) :
    parse_name (String.mk ((A ++ '-' :: (B ++ '-' :: "py3-none-any".toList)) ++ ".whl".toList))
      = .ok (String.mk A, String.mk B) := by
  have hsuf := isSuffixOf_self_append
    (A ++ '-' :: (B ++ '-' :: "py3-none-any".toList)) ".whl".toList
  have hsplit : splitOnChar '-' (A ++ '-' :: (B ++ '-' :: "py3-none-any".toList))
      = A :: B :: ["py3".toList, "none".toList, "any".toList] := by
    rw [splitOnChar_append '-' A _ hdA, splitOnChar_append '-' B _ hdB]
    rfl
  have hlen : ((A ++ '-' :: (B ++ '-' :: "py3-none-any".toList)) ++ ".whl".toList).length - 4
      = (A ++ '-' :: (B ++ '-' :: "py3-none-any".toList)).length := by
    simp
    omega
  simp only [parse_name, string_toList_mk, hsuf, if_true, hlen, List.take_left, hsplit]
  simp [hA, hB]

theorem wheel_builder_filename_shape (n v : String) :
    wheel_builder_filename n v
      = String.mk ((n.toList ++ '-' :: (v.toList ++ '-' :: "py3-none-any".toList))
          ++ ".whl".toList) := by
  apply string_eq_of_toList
  have h1 : "-".toList = ['-'] := rfl
  have h2 : "-py3-none-any.whl".toList = '-' :: ("py3-none-any".toList ++ ".whl".toList) := rfl
  simp [wheel_builder_filename, string_toList_append, string_toList_mk, h1, h2]

/-- C4: for every name and version containing no dash, parsing the wheel
filename formatted by the self-hosted builder
(`{name}-{version}-py3-none-any.whl`, `WheelBuilder.__init__` of
`backend/wheel.py`) with `parse_name` of `lib/wheel.py` recovers exactly
`(name, version)`; and parsing fails for a filename not ending in `.whl`,
for a dash-separated segment count other than 5 or 6 (here 4 and 7), for an
empty name segment and for an empty version segment. -/
theorem wheel_filename_roundtrip_c4 :
    (∀ n v : String, n ≠ "" → v ≠ "" → '-' ∉ n.toList → '-' ∉ v.toList →
      parse_name (wheel_builder_filename n v) = .ok (n, v))
    ∧ (∀ s : String, ".whl".toList.isSuffixOf s.toList = false → parse_name s = .error ())
    ∧ parse_name "foo-1.0-py3-none.whl" = .error ()
    ∧ parse_name "extra-foo-1.0-a-py3-none-any.whl" = .error ()
    ∧ parse_name "-1.0-py3-none-any.whl" = .error ()
    ∧ parse_name "foo--py3-none-any.whl" = .error () := by
  refine ⟨?_, ?_, rfl, rfl, rfl, rfl⟩
  · intro n v hn hv hdn hdv
    rw [wheel_builder_filename_shape]
    have := parse_name_concat n.toList v.toList
      (string_toList_ne_nil n hn) (string_toList_ne_nil v hv) hdn hdv
    rwa [string_mk_toList, string_mk_toList] at this
  · intro s hsuf
    simp only [parse_name]
    rw [if_neg]
    exact fun h => by rw [hsuf] at h; exact Bool.false_ne_true h

/-- Witness for C4 at a concrete name and version. -/
theorem wheel_filename_roundtrip_c4_witness :
    parse_name (wheel_builder_filename "foo" "1.0") = .ok ("foo", "1.0") :=
  wheel_filename_roundtrip_c4.1 "foo" "1.0" (by decide) (by decide) (by decide) (by decide)

/-- C10: the wheel filename parser checks only the `.whl` suffix, a
dash-separated segment count of 5 or 6, and non-emptiness of the first two
segments, so an input with empty tag segments such as `foo-1.0---.whl`
parses successfully to `("foo", "1.0")`. -/
theorem parse_name_lax_c10 :
    (∀ s : String,
       (∃ r, parse_name s = .ok r) ↔
         (".whl".toList.isSuffixOf s.toList = true ∧
          ((splitOnChar '-' (s.toList.take (s.toList.length - 4))).length = 5 ∨
           (splitOnChar '-' (s.toList.take (s.toList.length - 4))).length = 6) ∧
          (splitOnChar '-' (s.toList.take (s.toList.length - 4))).getD 0 [] ≠ [] ∧
          (splitOnChar '-' (s.toList.take (s.toList.length - 4))).getD 1 [] ≠ []))
    ∧ parse_name "foo-1.0---.whl" = .ok ("foo", "1.0") := by
  refine ⟨?_, rfl⟩
  intro s
  simp only [parse_name]
  by_cases hsuf : ".whl".toList.isSuffixOf s.toList = true
  · rw [if_pos hsuf]
    cases hparts : splitOnChar '-' (s.toList.take (s.toList.length - 4)) with
    | nil => simp [hsuf]
    | cons n rest =>
      cases rest with
      | nil => simp [hsuf]
      | cons v rest2 =>
        by_cases hlen : (n :: v :: rest2).length = 5 ∨ (n :: v :: rest2).length = 6
        · rw [if_pos hlen]
          by_cases hnv : n = [] ∨ v = []
          · rcases hnv with h | h <;> simp [hsuf, hlen, h]
          · push_neg at hnv
            simp [hsuf, hlen, hnv.1, hnv.2]
            refine ⟨List.isSuffixOf_iff_suffix.mp hsuf, ?_⟩
            simp only [List.length_cons] at hlen
            omega
        · rw [if_neg hlen]
          constructor
          · rintro ⟨r, hr⟩
            exact absurd hr (by simp)
          · rintro ⟨-, hl2, -, -⟩
            exact absurd hl2 hlen
  · rw [if_neg hsuf]
    constructor
    · rintro ⟨r, hr⟩
      exact absurd hr (by simp)
    · rintro ⟨h1, -, -, -⟩
      exact absurd h1 hsuf

/-- Witness for C10's characterization at a concrete filename with empty
tag segments. -/
theorem parse_name_lax_c10_witness : ∃ r, parse_name "x-1----.whl" = .ok r :=
  (parse_name_lax_c10.1 "x-1----.whl").mpr (by decide)

/-- C1 (evaluation of the code at the failing input): the hook-name enum of
`build_cmd/helper/backend_caller.py` accepts exactly the four hooks
`build_wheel`, `build_sdist`, `get_requires_for_build_wheel` and
`get_requires_for_build_sdist`, and rejects `prepare_metadata_for_build_wheel`
— contradicting the spec and the repository's own tests, which expect the
prepare-metadata hook to be supported and `build_metadata` to exist
(`build_cmd/__init__.py` even re-exports a `build_metadata` that
`build_cmd/_build.py` never defines). -/
theorem supported_hooks_c1 :
    hook_name_accepted "prepare_metadata_for_build_wheel" = false
    ∧ hook_name_accepted "build_wheel" = true
    ∧ hook_name_accepted "build_sdist" = true
    ∧ hook_name_accepted "get_requires_for_build_wheel" = true
    ∧ hook_name_accepted "get_requires_for_build_sdist" = true
    ∧ SUPPORTED_HOOKS.length = 4 := by
  refine ⟨rfl, rfl, rfl, rfl, rfl, rfl⟩

/-- C9: `build_shebang` returns the direct `#!path` form exactly when the
interpreter path has no space and at most 127 characters; otherwise it
returns the two-stage `/bin/sh` wrapper, whose first line is `#!/bin/sh`. -/
theorem build_shebang_c9 :
    (∀ e : String, build_shebang e = "#!" ++ e ↔ (' ' ∉ e.toList ∧ e.length ≤ 127))
    ∧ (∀ e : String, ' ' ∈ e.toList ∨ 127 < e.length →
        build_shebang e
            = "#!/bin/sh\n\x27\x27\x27exec\x27 " ++ e ++ " \"$0\" \"$@\"\n\x27 \x27\x27\x27"
          ∧ ∃ rest, build_shebang e = "#!/bin/sh\n" ++ rest) := by
  constructor
  · intro e
    by_cases h : ' ' ∉ e.toList ∧ e.length ≤ 127
    · rw [build_shebang, if_pos h]
      exact iff_of_true rfl h
    · rw [build_shebang, if_neg h]
      constructor
      · intro heq
        exfalso
        have hlen := congrArg String.length heq
        have h1 : ("#!/bin/sh\n\x27\x27\x27exec\x27 " : String).length = 19 := rfl
        have h2 : (" \"$0\" \"$@\"\n\x27 \x27\x27\x27" : String).length = 16 := rfl
        have h3 : ("#!" : String).length = 2 := rfl
        rw [String.length_append, String.length_append, String.length_append,
          h1, h2, h3] at hlen
        omega
      · intro hc
        exact absurd hc h
  · intro e h'
    have hneg : ¬ (' ' ∉ e.toList ∧ e.length ≤ 127) := by
      rintro ⟨ha, hb⟩
      rcases h' with h | h
      · exact ha h
      · omega
    rw [build_shebang, if_neg hneg]
    refine ⟨rfl, "\x27\x27\x27exec\x27 " ++ (e ++ " \"$0\" \"$@\"\n\x27 \x27\x27\x27"), ?_⟩
    have hp : ("#!/bin/sh\n\x27\x27\x27exec\x27 " : String)
        = "#!/bin/sh\n" ++ "\x27\x27\x27exec\x27 " := rfl
    rw [hp, String.append_assoc, String.append_assoc]

/-- Witness for C9: a short space-free path gets the direct shebang, a path
with a space gets the `/bin/sh` wrapper. -/
theorem build_shebang_c9_witness :
    build_shebang "/usr/bin/python3" = "#!" ++ "/usr/bin/python3"
    ∧ build_shebang "/usr/bin/env python"
        = "#!/bin/sh\n\x27\x27\x27exec\x27 " ++ "/usr/bin/env python"
            ++ " \"$0\" \"$@\"\n\x27 \x27\x27\x27" :=
  ⟨(build_shebang_c9.1 "/usr/bin/python3").mpr (by decide),
   (build_shebang_c9.2 "/usr/bin/env python" (Or.inl (by decide))).1⟩


theorem takeWhile_append_stop (p : Char → Bool) (a : List Char) (c : Char) (b : List Char)
    (ha : ∀ x ∈ a, p x = true) (hc : p c = false) :
    (a ++ c :: b).takeWhile p = a := by
  induction a with
  | nil => simp [List.takeWhile, hc]
  | cons x xs ih =>
    have hx : p x = true := ha x (List.mem_cons_self x xs)
    have hxs : ∀ y ∈ xs, p y = true := fun y hy => ha y (List.mem_cons_of_mem _ hy)
    simp [List.takeWhile, hx, ih hxs]

theorem part0_append (di x : String) (hdi : '/' ∉ di.toList) :
    part0 (di ++ "/" ++ x) = di := by
  have hshape : (di ++ "/" ++ x).toList = di.toList ++ '/' :: x.toList := by
    rw [string_toList_append, string_toList_append]
    simp
  rw [part0, hshape, takeWhile_append_stop]
  · exact string_mk_toList di
  · intro y hy
    simp only [decide_eq_true_eq]
    intro hy'
    exact hdi (hy' ▸ hy)
  · simp

theorem string_append_left_cancel (p a b : String) (h : p ++ a = p ++ b) : a = b := by
  apply string_eq_of_toList
  have := congrArg String.toList h
  rw [string_toList_append, string_toList_append] at this
  exact List.append_cancel_left this

/-- One-step characterization of the predicate used by `filter_dist_info`. -/
theorem filter_dist_info_mem (di : String) (ms : List String) (strip : Bool) (f : String) :
    f ∈ filter_dist_info di ms strip ↔
      f ∈ ms ∧
        (part0 f ≠ di ∨
          ((strip = true → f ∈ ALLOW_DIST_INFO_LIST.map (fun x => di ++ "/" ++ x)) ∧
            f ∉ DENY_DIST_INFO_LIST.map (fun x => di ++ "/" ++ x))) := by
  rw [filter_dist_info, List.mem_filter]
  refine and_congr_right fun _ => ?_
  by_cases hp : part0 f = di
  · rw [if_pos hp]
    cases strip with
    | false =>
      by_cases hd : f ∈ DENY_DIST_INFO_LIST.map (fun x => di ++ "/" ++ x) <;>
        simp [hp, hd, List.elem_iff]
    | true =>
      by_cases ha : f ∈ ALLOW_DIST_INFO_LIST.map (fun x => di ++ "/" ++ x)
      · by_cases hd : f ∈ DENY_DIST_INFO_LIST.map (fun x => di ++ "/" ++ x) <;>
          simp [hp, ha, hd, List.elem_iff]
      · simp [hp, ha, List.elem_iff]
  · rw [if_neg hp]
    simp [hp]

/-- C7: member filtering before extraction keeps every member whose first
path component is not the dist-info directory; inside the dist-info
directory, with stripping enabled, exactly the METADATA and entry_points.txt
entries are kept; with stripping disabled everything except RECORD is kept;
the RECORD entry is dropped under both settings; and filtering the members
of a minimal wheel with stripping leaves only METADATA in dist-info, never
RECORD. -/
theorem filter_dist_info_c7 :
    (∀ di ms strip f, part0 f ≠ di →
      (f ∈ filter_dist_info di ms strip ↔ f ∈ ms))
    ∧ (∀ di ms f, part0 f = di →
        (f ∈ filter_dist_info di ms true ↔
          f ∈ ms ∧ (f = di ++ "/" ++ "METADATA" ∨ f = di ++ "/" ++ "entry_points.txt")))
    ∧ (∀ di ms f, part0 f = di →
        (f ∈ filter_dist_info di ms false ↔ f ∈ ms ∧ f ≠ di ++ "/" ++ "RECORD"))
    ∧ (∀ di ms strip, '/' ∉ di.toList →
        di ++ "/" ++ "RECORD" ∉ filter_dist_info di ms strip)
    ∧ filter_dist_info "foo-1.0.dist-info"
        ["foo/__init__.py", "foo-1.0.dist-info/METADATA",
         "foo-1.0.dist-info/WHEEL", "foo-1.0.dist-info/RECORD"] true
      = ["foo/__init__.py", "foo-1.0.dist-info/METADATA"] := by
  have hmeta : ∀ di : String, ¬ (di ++ "/" ++ "METADATA" = di ++ "/" ++ "RECORD") := by
    intro di h
    have h2 := congrArg String.toList (string_append_left_cancel (di ++ "/") _ _ h)
    exact absurd h2 (by decide)
  have heps : ∀ di : String, ¬ (di ++ "/" ++ "entry_points.txt" = di ++ "/" ++ "RECORD") := by
    intro di h
    have h2 := congrArg String.toList (string_append_left_cancel (di ++ "/") _ _ h)
    exact absurd h2 (by decide)
  refine ⟨?_, ?_, ?_, ?_, rfl⟩
  · intro di ms strip f hf
    rw [filter_dist_info_mem]
    simp [hf]
  · intro di ms f hf
    rw [filter_dist_info_mem]
    refine and_congr_right fun _ => ?_
    simp only [hf, ALLOW_DIST_INFO_LIST, DENY_DIST_INFO_LIST, List.map, not_true]
    constructor
    · rintro (h | ⟨hin, -⟩)
      · exact absurd rfl h
      · simpa using hin trivial
    · rintro (h | h)
      · exact Or.inr ⟨fun _ => by simp [h], by simp [h, hmeta di]⟩
      · exact Or.inr ⟨fun _ => by simp [h], by simp [h, heps di]⟩
  · intro di ms f hf
    rw [filter_dist_info_mem]
    refine and_congr_right fun _ => ?_
    simp only [hf, DENY_DIST_INFO_LIST, List.map, not_true]
    constructor
    · rintro (h | ⟨-, hd⟩)
      · exact absurd rfl h
      · simpa using hd
    · intro h
      exact Or.inr ⟨(fun hs => absurd hs (by simp)), by simpa using h⟩
  · intro di ms strip hdi hmem
    rw [filter_dist_info_mem] at hmem
    rcases hmem.2 with h | ⟨-, hd⟩
    · exact h (part0_append di "RECORD" hdi)
    · simp [DENY_DIST_INFO_LIST] at hd

/-- Witness for C7 at a concrete dist-info directory and member list. -/
theorem filter_dist_info_c7_witness :
    ("pkg-2.0.dist-info/RECORD" : String) ∉
        filter_dist_info "pkg-2.0.dist-info" ["pkg-2.0.dist-info/RECORD", "m.py"] false
    ∧ ("m.py" : String) ∈ filter_dist_info "pkg-2.0.dist-info" ["pkg-2.0.dist-info/RECORD", "m.py"] false := by
  constructor
  · have h := filter_dist_info_c7.2.2.2.1 "pkg-2.0.dist-info"
      ["pkg-2.0.dist-info/RECORD", "m.py"] false (by decide)
    intro hmem
    apply h
    have : ("pkg-2.0.dist-info" : String) ++ "/" ++ "RECORD" = "pkg-2.0.dist-info/RECORD" := rfl
    rwa [this]
  · exact (filter_dist_info_c7.1 "pkg-2.0.dist-info"
      ["pkg-2.0.dist-info/RECORD", "m.py"] false "m.py" (by decide)).mpr (by decide)


/-- C3: for a non-RECORD row, hash validation succeeds exactly when the hash
field splits as `algorithm=digest` with both parts non-empty, the
lower-cased algorithm is neither md5 nor sha1, and the recorded digest
equals the URL-safe unpadded base64 encoding of the freshly computed digest
of the member's bytes; a mismatching digest yields precisely the
incorrect-hash error; md5 and sha1 are rejected case-insensitively; and the
RECORD file's own row is exempt from all hash checks (here: a RECORD row
with an md5 hash field still passes `validate_record`). -/
theorem validate_hash_record_c3 :
    (∀ dg f hi data,
       validate_hash_record dg f hi data = .ok () ↔
         ((partitionEq hi).1 ≠ "" ∧ (partitionEq hi).2 ≠ "" ∧
          String.mk ((partitionEq hi).1.toList.map Char.toLower) ∉ (["md5", "sha1"] : List String) ∧
          digest_for_record dg (String.mk ((partitionEq hi).1.toList.map Char.toLower)) data
            = some (partitionEq hi).2))
    ∧ (∀ dg f hi data d,
        (partitionEq hi).1 ≠ "" → (partitionEq hi).2 ≠ "" →
        String.mk ((partitionEq hi).1.toList.map Char.toLower) ∉ (["md5", "sha1"] : List String) →
        digest_for_record dg (String.mk ((partitionEq hi).1.toList.map Char.toLower)) data
          = some d →
        d ≠ (partitionEq hi).2 →
        validate_hash_record dg f hi data = .error (.incorrectHash f))
    ∧ validate_hash_record (fun _ b => some b) "f" "MD5=x" [] = .error (.weakHash "md5")
    ∧ validate_hash_record (fun _ b => some b) "f" "ShA1=x" [] = .error (.weakHash "sha1")
    ∧ validate_record (fun _ b => some b) "d.dist-info"
        [("d.dist-info/RECORD", [7])] [["d.dist-info/RECORD", "md5=garbage", ""]] = .ok () := by
  refine ⟨?_, ?_, rfl, rfl, rfl⟩
  · intro dg f hi data
    rw [validate_hash_record]
    by_cases h1 : (partitionEq hi).1 = "" ∨ (partitionEq hi).2 = ""
    · rw [if_pos h1]
      constructor
      · intro h
        exact absurd h (by simp)
      · rintro ⟨ha, hb, -, -⟩
        rcases h1 with h | h
        · exact absurd h ha
        · exact absurd h hb
    · rw [if_neg h1]
      push_neg at h1
      by_cases h2 : String.mk ((partitionEq hi).1.toList.map Char.toLower) = "md5"
          ∨ String.mk ((partitionEq hi).1.toList.map Char.toLower) = "sha1"
      · rw [if_pos h2]
        constructor
        · intro h
          exact absurd h (by simp)
        · rintro ⟨-, -, hw, -⟩
          exfalso
          apply hw
          rcases h2 with h | h <;> rw [h] <;> simp
      · rw [if_neg h2]
        rcases hdg : digest_for_record dg
            (String.mk ((partitionEq hi).1.toList.map Char.toLower)) data with _ | dig
        · simp
        · by_cases heq : dig = (partitionEq hi).2
          · simp [heq, h1.1, h1.2, h2]
            exact ⟨fun h => h2 (Or.inl h), fun h => h2 (Or.inr h)⟩
          · simp [heq, h1.1, h1.2, h2]
  · intro dg f hi data d hne1 hne2 hw hdg hne
    rw [validate_hash_record,
      if_neg (by rintro (h | h) <;> [exact hne1 h; exact hne2 h]),
      if_neg (fun hor => hw (by rcases hor with h | h <;> rw [h] <;> simp))]
    simp only [hdg]
    rw [if_neg hne]

/-- Witness for C3: a concrete member whose recorded digest does not match
the recomputed one fails with the incorrect-hash error. -/
theorem validate_hash_record_c3_witness :
    validate_hash_record (fun _ b => some b) "w.py" "sha256=AAEC" [9, 9, 9]
      = .error (.incorrectHash "w.py") :=
  validate_hash_record_c3.2.1 (fun _ b => some b) "w.py" "sha256=AAEC" [9, 9, 9]
    (String.mk (b64urlNoPad [9, 9, 9])) (by decide) (by decide) (by decide) rfl (by decide)

/-- C5: wheel spec-version validation succeeds exactly when the
`Wheel-Version` field is present, every dotted component parses as a Python
integer, and the major component does not exceed the supported major (1);
the missing field, a non-integer component and a too-large major are the
three failure cases, and a tuple greater than (1, 0) with major 1 — such as
1.1 — passes with only a warning. -/
theorem validate_wheel_spec_version_c5 :
    (∀ field, (∃ r, validate_wheel_spec_version field = .ok r) ↔
       (∃ s t, field = some s ∧
          (splitOnChar '.' (pyStrip s.toList)).mapM (fun p => pyInt (String.mk p)) = some t ∧
          t.headD 0 ≤ 1))
    ∧ validate_wheel_spec_version none = .error .missingVersion
    ∧ validate_wheel_spec_version (some "2.0") = .error (.incompatibleVersion "2.0")
    ∧ validate_wheel_spec_version (some "1.x") = .error (.invalidVersion "1.x")
    ∧ validate_wheel_spec_version (some "1.1") = .ok ([1, 1], true)
    ∧ validate_wheel_spec_version (some "1.0") = .ok ([1, 0], false) := by
  refine ⟨?_, rfl, rfl, rfl, rfl, rfl⟩
  intro field
  cases field with
  | none => simp [validate_wheel_spec_version]
  | some txt =>
    rw [validate_wheel_spec_version]
    rcases hm : (splitOnChar '.' (pyStrip txt.toList)).mapM (fun p => pyInt (String.mk p))
        with _ | t
    · simp only [string_toList_mk, hm]
      constructor
      · rintro ⟨r, hr⟩
        exact absurd hr (by simp)
      · rintro ⟨s, t, hs, hmt, -⟩
        rw [Option.some.injEq] at hs
        rw [← hs] at hmt
        rw [hmt] at hm
        exact absurd hm (by simp)
    · simp only [string_toList_mk, hm]
      by_cases hmaj : t.headD 0 > WHEEL_SPECIFICATION_VERSION.headD 0
      · rw [if_pos hmaj]
        constructor
        · rintro ⟨r, hr⟩
          exact absurd hr (by simp)
        · rintro ⟨s, t2, hs, hmt, hle⟩
          rw [Option.some.injEq] at hs
          rw [← hs] at hmt
          rw [hmt] at hm
          rw [Option.some.injEq] at hm
          subst hm
          have hone : WHEEL_SPECIFICATION_VERSION.headD 0 = 1 := rfl
          rw [hone] at hmaj
          omega
      · rw [if_neg hmaj]
        refine iff_of_true ⟨(t, tupleLt WHEEL_SPECIFICATION_VERSION t), rfl⟩ ?_
        refine ⟨txt, t, rfl, hm, ?_⟩
        have : WHEEL_SPECIFICATION_VERSION.headD 0 = 1 := rfl
        omega

/-- Witness for C5 at a concrete three-component version. -/
theorem validate_wheel_spec_version_c5_witness :
    ∃ r, validate_wheel_spec_version (some "1.0.1") = .ok r :=
  (validate_wheel_spec_version_c5.1 (some "1.0.1")).mpr
    ⟨"1.0.1", [1, 0, 1], rfl, by decide, by decide⟩

theorem validate_record_rows_ok (dg : String → List Nat → Option (List Nat))
    (wheel : List (String × List Nat)) (record_path : String) :
    ∀ (rows : List (List String)) (acc out : List String),
      validate_record_rows dg wheel record_path acc rows = .ok out →
      out = (rows.filterMap List.head?).reverse ++ acc
      ∧ (∀ row ∈ rows, ∃ f hi sz, row = [f, hi, sz] ∧ f ∈ wheel.map Prod.fst)
      ∧ (acc.Nodup → out.Nodup) := by
  intro rows
  induction rows with
  | nil =>
    intro acc out h
    simp only [validate_record_rows, Except.ok.injEq] at h
    subst h
    exact ⟨by simp, by simp, fun hn => hn⟩
  | cons row rest ih =>
    intro acc out h
    rcases row with _ | ⟨f, row1⟩
    · simp [validate_record_rows] at h
    · rcases row1 with _ | ⟨hi, row2⟩
      · simp [validate_record_rows] at h
      · rcases row2 with _ | ⟨sz, row3⟩
        · simp [validate_record_rows] at h
        · rcases row3 with _ | ⟨x, row4⟩
          · rw [validate_record_rows] at h
            by_cases hdup : f ∈ acc
            · rw [if_pos hdup] at h
              exact absurd h (by simp)
            · rw [if_neg hdup] at h
              by_cases hmem : f ∉ wheel.map Prod.fst
              · rw [if_pos hmem] at h
                exact absurd h (by simp)
              · rw [if_neg hmem] at h
                push_neg at hmem
                rcases hhash : (if f = record_path then Except.ok ()
                    else validate_hash_record dg f hi (lookupBytes wheel f)) with e | u
                · rw [hhash] at h
                  exact absurd h (by simp)
                · simp only [hhash] at h
                  obtain ⟨h1, h2, h3⟩ := ih (f :: acc) out h
                  refine ⟨?_, ?_, ?_⟩
                  · rw [h1]
                    simp
                  · intro row' hr'
                    rcases List.mem_cons.mp hr' with hr' | hr'
                    · exact ⟨f, hi, sz, hr', hmem⟩
                    · exact h2 row' hr'
                  · intro hnacc
                    exact h3 (List.nodup_cons.mpr ⟨hdup, hnacc⟩)
          · simp [validate_record_rows] at h

/-- C2: RECORD validation passes only if every archive member other than the
two exempted detached-signature files appears exactly once among the RECORD
row paths and every row references a packaged member; an empty RECORD, a
duplicate row, a row naming a non-member and an unrecorded non-exempt
member each fail with their distinct errors. -/
theorem validate_record_c2 :
    (∀ dg di wheel rows, validate_record dg di wheel rows = .ok () →
       (∀ m ∈ wheel.map Prod.fst, m ∉ UNRECORDED_FILES di → m ≠ di ++ "/" ++ "RECORD" →
          (rows.filterMap List.head?).count m = 1)
       ∧ (∀ row ∈ rows, ∃ f hi sz, row = [f, hi, sz] ∧ f ∈ wheel.map Prod.fst))
    ∧ validate_record (fun _ b => some b) "d.dist-info"
        [("d.dist-info/RECORD", [])] [] = .error .emptyRecord
    ∧ validate_record (fun _ b => some b) "d.dist-info"
        [("d.dist-info/RECORD", [])]
        [["d.dist-info/RECORD", "", ""], ["d.dist-info/RECORD", "", ""]]
        = .error (.multipleRecords "d.dist-info/RECORD")
    ∧ validate_record (fun _ b => some b) "d.dist-info"
        [("d.dist-info/RECORD", [])] [["ghost.py", "", ""]]
        = .error (.notPackaged "ghost.py")
    ∧ validate_record (fun _ b => some b) "d.dist-info"
        [("d.dist-info/RECORD", []), ("extra.py", [1])]
        [["d.dist-info/RECORD", "", ""]]
        = .error (.extraPackaged ["extra.py"]) := by
  refine ⟨?_, rfl, rfl, rfl, rfl⟩
  intro dg di wheel rows hok
  rw [validate_record] at hok
  rcases hrows : validate_record_rows dg wheel (di ++ "/" ++ "RECORD") [] rows with e | out
  · rw [hrows] at hok
    exact absurd hok (by simp)
  · simp only [hrows] at hok
    by_cases hempty : out = []
    · rw [if_pos hempty] at hok
      exact absurd hok (by simp)
    · rw [if_neg hempty] at hok
      by_cases hextra : ((wheel.map Prod.fst).filter
          (fun m => !(out.contains m) && !((UNRECORDED_FILES di).contains m))) = []
      · obtain ⟨hout, hrowsfact, hnodup⟩ :=
          validate_record_rows_ok dg wheel (di ++ "/" ++ "RECORD") rows [] out hrows
        refine ⟨?_, hrowsfact⟩
        intro m hm hnotex _
        have hmout : m ∈ out := by
          by_contra hmo
          have hmf : m ∉ (wheel.map Prod.fst).filter
              (fun m => !(out.contains m) && !((UNRECORDED_FILES di).contains m)) := by
            rw [hextra]
            simp
          apply hmf
          rw [List.mem_filter]
          refine ⟨hm, ?_⟩
          simp [hmo, hnotex]
        rw [hout, List.append_nil] at hmout
        have hnd : out.Nodup := hnodup (by simp)
        rw [hout, List.append_nil] at hnd
        rw [← List.count_reverse]
        exact List.count_eq_one_of_mem hnd hmout
      · rw [if_neg hextra] at hok
        exact absurd hok (by simp)

/-- Witness for C2: a concrete wheel whose RECORD covers exactly its
members passes, and the member row count is exactly one. -/
theorem validate_record_c2_witness :
    ([["d.dist-info/RECORD", "", ""], ["m.py", "sha256=AAEC", "3"]].filterMap
        List.head?).count "m.py" = 1 :=
  ((validate_record_c2.1 (fun _ b => some b) "d.dist-info"
      [("d.dist-info/RECORD", []), ("m.py", [0, 1, 2])]
      [["d.dist-info/RECORD", "", ""], ["m.py", "sha256=AAEC", "3"]] rfl).1
    "m.py" (by decide) (by decide) (by decide))

theorem check_backend_paths_ok (resolve : List String → Option (List String))
    (srcdir : List String) :
    ∀ (items : List Toml) (out : List String),
      check_backend_paths resolve srcdir items = .ok out →
      ∀ p ∈ out, isAbsolutePath p = false ∧
        ∃ r, resolve (srcdir ++ pathComps p) = some r ∧ srcdir.isPrefixOf r = true := by
  intro items
  induction items with
  | nil =>
    intro out h
    simp only [check_backend_paths, Except.ok.injEq] at h
    subst h
    intro p hp
    exact absurd hp (by simp)
  | cons item rest ih =>
    intro out h
    rcases item with q | its | _
    · rw [check_backend_paths] at h
      by_cases habs : isAbsolutePath q
      · rw [if_pos habs] at h
        exact absurd h (by simp)
      · rw [if_neg habs] at h
        rcases hres : resolve (srcdir ++ pathComps q) with _ | bep
        · rw [hres] at h
          exact absurd h (by simp)
        · simp only [hres] at h
          by_cases hpre : srcdir.isPrefixOf bep
          · rw [if_pos hpre] at h
            rcases hrest : check_backend_paths resolve srcdir rest with e | out'
            · rw [hrest] at h
              exact absurd h (by simp [Except.map])
            · rw [hrest] at h
              simp only [Except.map, Except.ok.injEq] at h
              subst h
              intro p hp
              rcases List.mem_cons.mp hp with hp | hp
              · subst hp
                exact ⟨Bool.of_not_eq_true habs, bep, hres, hpre⟩
              · exact ih out' hrest p hp
          · rw [if_neg hpre] at h
            exact absurd h (by simp)
    · simp [check_backend_paths] at h
    · simp [check_backend_paths] at h

/-- C8: every build-system spec returned by resolution satisfies the
containment invariant — each backend-path entry is relative and, resolved
against the project root, has the project root as a path prefix; an
absolute entry, an unresolvable entry and an entry resolving outside the
root each raise their distinct error, and an erred resolution never spawns
the hook subprocess. -/
theorem backend_path_containment_c8 :
    (∀ resolve srcdir st spec ps,
       parse_build_system_spec resolve srcdir st = .ok spec →
       spec.backendPath = some ps →
       ∀ p ∈ ps, isAbsolutePath p = false ∧
         ∃ r, resolve (srcdir ++ pathComps p) = some r ∧ srcdir.isPrefixOf r = true)
    ∧ (∀ resolve srcdir req bb p, isAbsolutePath p = true →
        parse_build_system_spec resolve srcdir
          (.parsed (some ⟨some (.tList [.tStr req]), some (.tStr bb),
            some (.tList [.tStr p])⟩))
          = .error (.absoluteBackendPath p))
    ∧ (∀ resolve srcdir req bb p, isAbsolutePath p = false →
        resolve (srcdir ++ pathComps p) = none →
        parse_build_system_spec resolve srcdir
          (.parsed (some ⟨some (.tList [.tStr req]), some (.tStr bb),
            some (.tList [.tStr p])⟩))
          = .error (.unresolvedBackendPath p))
    ∧ (∀ resolve srcdir req bb p r, isAbsolutePath p = false →
        resolve (srcdir ++ pathComps p) = some r →
        srcdir.isPrefixOf r = false →
        parse_build_system_spec resolve srcdir
          (.parsed (some ⟨some (.tList [.tStr req]), some (.tStr bb),
            some (.tList [.tStr p])⟩))
          = .error (.outsideBackendPath p))
    ∧ (∀ resolve srcdir st e,
        parse_build_system_spec resolve srcdir st = .error e →
        call_hook_spawns resolve srcdir st = (.error e, false)) := by
  refine ⟨?_, ?_, ?_, ?_, ?_⟩
  · intro resolve srcdir st spec ps hok hbp p hp
    cases st with
    | noFile =>
      simp only [parse_build_system_spec, Except.ok.injEq] at hok
      subst hok
      simp [DEFAULT_BUILD_SYSTEM] at hbp
    | badToml => simp [parse_build_system_spec] at hok
    | parsed obs =>
      cases obs with
      | none =>
        simp only [parse_build_system_spec, Except.ok.injEq] at hok
        subst hok
        simp [DEFAULT_BUILD_SYSTEM] at hbp
      | some bs =>
        obtain ⟨req, bb, bp⟩ := bs
        rcases req with _ | t
        · simp [parse_build_system_spec] at hok
        · rcases t with s | its | _
          · simp [parse_build_system_spec] at hok
          · rcases hsi : strItems its with _ | reqs
            · simp [parse_build_system_spec, hsi] at hok
            · rcases bb with _ | b
              · simp only [parse_build_system_spec, hsi, Except.ok.injEq] at hok
                subst hok
                simp [DEFAULT_BUILD_SYSTEM] at hbp
              · rcases b with bstr | bl | _
                · rcases bp with _ | bpt
                  · simp only [parse_build_system_spec, hsi, Except.ok.injEq] at hok
                    subst hok
                    simp at hbp
                  · rcases bpt with bs2 | bpits | _
                    · simp [parse_build_system_spec, hsi] at hok
                    · rcases hcbp : check_backend_paths resolve srcdir bpits with e | paths
                      · simp [parse_build_system_spec, hsi, hcbp] at hok
                      · simp only [parse_build_system_spec, hsi, hcbp,
                          Except.ok.injEq] at hok
                        subst hok
                        simp only [Option.some.injEq] at hbp
                        subst hbp
                        exact check_backend_paths_ok resolve srcdir bpits paths hcbp p hp
                    · simp [parse_build_system_spec, hsi] at hok
                · simp [parse_build_system_spec, hsi] at hok
                · simp [parse_build_system_spec, hsi] at hok
          · simp [parse_build_system_spec] at hok
  · intro resolve srcdir req bb p h
    simp [parse_build_system_spec, strItems, check_backend_paths, h]
  · intro resolve srcdir req bb p habs hres
    simp [parse_build_system_spec, strItems, check_backend_paths, habs, hres]
  · intro resolve srcdir req bb p r habs hres hpre
    simp [parse_build_system_spec, strItems, check_backend_paths, habs, hres, hpre]
  · intro resolve srcdir st e h
    rw [call_hook_spawns, h]

/-- Witness for C8: a concrete in-tree backend path passing the containment
check, with an identity resolution oracle. -/
theorem backend_path_containment_c8_witness :
    isAbsolutePath "be" = false ∧
      ∃ r, (fun l => some l) (["root"] ++ pathComps "be") = some r ∧
        List.isPrefixOf ["root"] r = true :=
  backend_path_containment_c8.1 (fun l => some l) ["root"]
    (.parsed (some ⟨some (.tList [.tStr "setuptools"]), some (.tStr "be_mod"),
      some (.tList [.tStr "be"])⟩))
    ⟨"be_mod", ["setuptools"], some ["be"]⟩ ["be"] rfl rfl "be" (by simp)

theorem pcProj_append (a b : List (String × List Nat × Int)) :
    pcProj (a ++ b) = pcProj a ++ pcProj b := by
  simp [pcProj]

theorem filesOut_scrub (p : String) : (es : FsList) →
    pcProj (filesOut p (scrubList es)) = pcProj (filesOut p es)
  | .nil => rfl
  | .cons (.file n c m s r) rest => by
    simp only [scrubList, scrubEntry, filesOut, pcProj_append]
    rw [filesOut_scrub p rest]
    by_cases hk : keepModuleFile n s r = true
    · simp [hk, pcProj]
    · simp [hk, pcProj]
  | .cons (.dir n sub) rest => by
    simp only [scrubList, scrubEntry, filesOut]
    exact filesOut_scrub p rest

theorem walkDirs_scrub (p : String) : (es : FsList) →
    pcProj (walkDirs p (scrubList es)) = pcProj (walkDirs p es)
  | .nil => rfl
  | .cons (.file n c m s r) rest => by
    simp [scrubList, scrubEntry, walkDirs, walkDirs_scrub p rest]
  | .cons (.dir n sub) rest => by
    by_cases h : n = "__pycache__"
    · simp [scrubList, scrubEntry, walkDirs, h, walkDirs_scrub p rest]
    · simp only [scrubList, scrubEntry, walkDirs, if_neg h, pcProj_append]
      rw [filesOut_scrub, walkDirs_scrub (p ++ n ++ "/") sub, walkDirs_scrub p rest]

theorem walkModules_scrub (p : String) (es : FsList) :
    pcProj (walkModules p (scrubList es)) = pcProj (walkModules p es) := by
  rw [walkModules, walkModules, pcProj_append, pcProj_append,
    filesOut_scrub, walkDirs_scrub]

theorem walkModules_canon (es : FsList) :
    pcProj (walkModules "" (sortList es)) = pcProj (walkModules "" (canonTree es)) := by
  rw [canonTree]
  exact (walkModules_scrub "" (sortList es)).symm

/-- C6: `source_date_time` falls back to the file's own mtime exactly when
the environment override is absent and returns the override otherwise, and
building the wheel twice with the same override set over two listings of
the same source tree — the canonical forms (per-directory sorted order,
modification times erased) coincide — produces identical archives: same
member order, same member bytes, same timestamps, same RECORD rows,
regardless of the wall-clock times and the mtimes of the two runs. -/
theorem reproducible_build_c6 :
    (∀ m : Int, source_date_time none m = m)
    ∧ (∀ d m : Int, source_date_time (some d) m = d)
    ∧ (∀ (dg : List Nat → List Nat) (d now1 now2 : Int) (di : String)
         (t1 t2 : FsList) (wm mb : List Nat) (lic : List (String × List Nat × Int)),
        canonTree t1 = canonTree t2 →
        build_wheel_archive dg (some d) now1 di t1 wm mb lic
          = build_wheel_archive dg (some d) now2 di t2 wm mb lic) := by
  refine ⟨fun m => rfl, fun d m => rfl, ?_⟩
  intro dg d now1 now2 di t1 t2 wm mb lic hc
  have hpc : pcProj (walkModules "" (sortList t1)) = pcProj (walkModules "" (sortList t2)) := by
    rw [walkModules_canon t1, walkModules_canon t2, hc]
  have hmem : ∀ mods : List (String × List Nat × Int),
      mods.map (fun m => (m.1, m.2.1, source_date_time (some d) m.2.2))
        = (pcProj mods).map (fun q => (q.1, q.2, d)) := by
    intro mods
    rw [pcProj, List.map_map]
    rfl
  have hrow : ∀ mods : List (String × List Nat × Int),
      mods.map (fun m => record_row dg m.1 m.2.1)
        = (pcProj mods).map (fun q => record_row dg q.1 q.2) := by
    intro mods
    rw [pcProj, List.map_map]
    rfl
  rw [build_wheel_archive, build_wheel_archive, WheelArchive.mk.injEq]
  constructor
  · rw [hmem, hmem, hpc]
    exact rfl
  · rw [hrow, hrow, hpc]

/-- Witness for C6: two listings of the same two-module tree, returned in
different orders and with different mtimes, yield the same archive when the
source-date override is set (here to 100), even with different wall-clock
times. -/
theorem reproducible_build_c6_witness :
    build_wheel_archive (fun l => l) (some 100) 999 "foo-1.0.dist-info"
      (.cons (.dir "pkg" (.cons (.file "b.py" [1] 5 false true)
        (.cons (.file "a.py" [2] 6 false true) .nil)))
      (.cons (.file "top.py" [3] 7 false true) .nil))
      [9] [8] [("LICENSE", [7], 3)]
    = build_wheel_archive (fun l => l) (some 100) 5 "foo-1.0.dist-info"
      (.cons (.file "top.py" [3] 11 false true)
      (.cons (.dir "pkg" (.cons (.file "a.py" [2] 12 false true)
        (.cons (.file "b.py" [1] 13 false true) .nil))) .nil))
      [9] [8] [("LICENSE", [7], 3)] :=
  reproducible_build_c6.2.2 (fun l => l) 100 999 5 "foo-1.0.dist-info"
    (.cons (.dir "pkg" (.cons (.file "b.py" [1] 5 false true)
      (.cons (.file "a.py" [2] 6 false true) .nil)))
    (.cons (.file "top.py" [3] 7 false true) .nil))
    (.cons (.file "top.py" [3] 11 false true)
    (.cons (.dir "pkg" (.cons (.file "a.py" [2] 12 false true)
      (.cons (.file "b.py" [1] 13 false true) .nil))) .nil))
    [9] [8] [("LICENSE", [7], 3)] rfl
